import Mathlib

/-!
# A verification development for the ARR MCP gateway

Shallow embedding of the core of the `arr-mcp` server: the tool registry
(`pkg/api`, `BasicToolRegistry`), the parameter validator
(`MCPServer.validateParameters`), the run dispatcher (`MCPServer.HandleRun`)
and the health endpoints (`HandleHealth`, `HandleListTools`,
`HandleServiceHealth`) from `pkg/server`.

Go values decoded by `encoding/json` into `interface{}` are modelled by the
inductive type `Json`; Go maps (`map[string]T`) are modelled as association
lists with unique keys, with Go map assignment `m[k] = v` as `mapInsert` and
map indexing `m[k]` as `jlookup`.  Go iterates maps in an unspecified order;
the list order of the model plays the role of that iteration order.  Handlers
(`api.Handler.HandleRequest(request) (interface{}, error)`) are modelled as
functions `MCPRequest → Except String Json`; the HTTP response written by an
endpoint is modelled by its status code plus the sequence of JSON bodies
(frames) written to the wire.
-/

namespace ArrMcp

/-- A JSON value as produced by Go `encoding/json` unmarshalling into
`interface{}`: `nil`, `bool`, `float64`, `string`, `[]interface{}` and
`map[string]interface{}`.  Numbers are modelled as rationals; a `float64`
with zero fractional part corresponds to a rational with denominator 1. -/
inductive Json where
  | null : Json
  | bool (b : Bool) : Json
  | num (q : ℚ) : Json
  | str (s : String) : Json
  | arr (elems : List Json) : Json
  | obj (fields : List (String × Json)) : Json

/-- Go map indexing `v, ok := m[k]` on a map modelled as an association
list: the first binding of the key, if any. -/
def jlookup {α : Type} (k : String) : List (String × α) → Option α
  | [] => none
  | (k₀, v) :: rest => if k₀ = k then some v else jlookup k rest

/-- Go map assignment `m[k] = v`: replace the existing binding of `k` when
present, otherwise append a fresh binding. -/
def mapInsert {α : Type} (k : String) (v : α) : List (String × α) → List (String × α)
  | [] => [(k, v)]
  | (k₀, v₀) :: rest =>
    if k₀ = k then (k, v) :: rest else (k₀, v₀) :: mapInsert k v rest

/-- `api.ToolDefinition`: name, description and the raw parameter schema
(`Parameters map[string]interface{}`, possibly empty). -/
structure ToolDefinition where
  Name : String
  Description : String
  Parameters : List (String × Json)

/-- `api.BasicToolRegistry`: `tools map[string]ToolDefinition`. -/
structure BasicToolRegistry where
  tools : List (String × ToolDefinition)

/-- `api.NewBasicToolRegistry`: an empty registry. -/
def NewBasicToolRegistry : BasicToolRegistry := ⟨[]⟩

/-- `BasicToolRegistry.RegisterTool`: `r.tools[tool.Name] = tool`. -/
def BasicToolRegistry.RegisterTool (r : BasicToolRegistry) (tool : ToolDefinition) :
    BasicToolRegistry :=
  ⟨mapInsert tool.Name tool r.tools⟩

/-- `BasicToolRegistry.GetTool`: `tool, exists := r.tools[name]`. -/
def BasicToolRegistry.GetTool (r : BasicToolRegistry) (name : String) :
    Option ToolDefinition :=
  jlookup name r.tools

/-- `BasicToolRegistry.ListTools`: all stored definitions, in map-iteration
order (modelled by the list order of the underlying bindings). -/
def BasicToolRegistry.ListTools (r : BasicToolRegistry) : List ToolDefinition :=
  r.tools.map Prod.snd

/-- The two shapes of error `validateParameters` produces. -/
inductive VReason where
  | requiredMissing : VReason
  | mustBe (what : String) : VReason
deriving DecidableEq

/-- A validation error: the offending parameter name and the reason. -/
structure VErr where
  param : String
  reason : VReason
deriving DecidableEq

/-- The error text exactly as produced by `fmt.Errorf` inside
`validateParameters`: `"required parameter missing: %s"` and
`"parameter %s must be a string"` (etc.). -/
def VErr.message : VErr → String
  | ⟨p, .requiredMissing⟩ => "required parameter missing: " ++ p
  | ⟨p, .mustBe what⟩ => "parameter " ++ p ++ " must be " ++ what

/-- Go `float64(int(num)) == num`: the numeric value has zero fractional
part.  On the rational model this is exactly `den = 1`. -/
def isIntegral (q : ℚ) : Bool := q.den == 1

/-- Go `required, _ := schemaObj["required"].(bool)`: `false` when the key
is absent or its value is not a boolean. -/
def requiredOf (schemaObj : List (String × Json)) : Bool :=
  match jlookup "required" schemaObj with
  | some (.bool b) => b
  | _ => false

/-- Go `expectedType, _ := schemaObj["type"].(string)`: the empty string
when the key is absent or its value is not a string. -/
def declaredType (schemaObj : List (String × Json)) : String :=
  match jlookup "type" schemaObj with
  | some (.str t) => t
  | _ => ""

/-- The `switch expectedType` of `validateParameters`, checking the runtime
type of a present value against the declared type string.  An empty or
unrecognised type string imposes no constraint (no `default` case in the
Go switch). -/
def typeCheck (paramName : String) (expectedType : String) (value : Json) : Option VErr :=
  if expectedType = "string" then
    match value with
    | .str _ => none
    | _ => some ⟨paramName, .mustBe "a string"⟩
  else if expectedType = "number" then
    match value with
    | .num _ => none
    | _ => some ⟨paramName, .mustBe "a number"⟩
  else if expectedType = "integer" then
    match value with
    | .num q => if isIntegral q then none else some ⟨paramName, .mustBe "an integer"⟩
    | _ => some ⟨paramName, .mustBe "an integer"⟩
  else if expectedType = "boolean" then
    match value with
    | .bool _ => none
    | _ => some ⟨paramName, .mustBe "a boolean"⟩
  else if expectedType = "array" then
    match value with
    | .arr _ => none
    | _ => some ⟨paramName, .mustBe "an array"⟩
  else if expectedType = "object" then
    match value with
    | .obj _ => none
    | _ => some ⟨paramName, .mustBe "an object"⟩
  else none

/-- One iteration of the loop in `MCPServer.validateParameters`, for the
declared parameter `paramName` with raw schema value `paramSchema`: skip
non-object schema values (`continue`), report a missing required parameter,
then type-check the value when present. -/
def checkParam (input : List (String × Json)) (paramName : String) (paramSchema : Json) :
    Option VErr :=
  match paramSchema with
  | .obj schemaObj =>
    if requiredOf schemaObj && (jlookup paramName input).isNone then
      some ⟨paramName, .requiredMissing⟩
    else
      match jlookup paramName input with
      | some value => typeCheck paramName (declaredType schemaObj) value
      | none => none
  | _ => none

/-- `MCPServer.validateParameters`: iterate over the declared parameters of
the schema (never over the input keys) and return the first error, or `none`
when every declared parameter passes. -/
def validateParameters (input : List (String × Json)) (schema : List (String × Json)) :
    Option VErr :=
  match schema with
  | [] => none
  | (paramName, paramSchema) :: rest =>
    match checkParam input paramName paramSchema with
    | some e => some e
    | none => validateParameters input rest

/-- `api.MCPRequest`: the decoded body of a `POST /v1/run` request. -/
structure MCPRequest where
  Input : List (String × Json)
  ToolName : String
  RequestID : String
  Timeout : Int
  AccessToken : String

/-- `api.Handler`: `HandleRequest(request MCPRequest) (interface{}, error)`.
An error result carries the Go error's text. -/
def Handler : Type := MCPRequest → Except String Json

/-- A registered `server.ServiceChecker`, described by its observable
behaviour: `Name()` and the outcome of `Check()` (`none` = healthy,
`some msg` = an error with text `msg`). -/
structure ServiceChecker where
  Name : String
  Check : Option String

/-- `server.MCPServer`: the tool registry, the handler map and the list of
registered service checkers. -/
structure MCPServer where
  registry : BasicToolRegistry
  handlers : List (String × Handler)
  serviceCheckers : List ServiceChecker

/-- `server.NewMCPServer`: empty registry, empty handler map, no checkers. -/
def NewMCPServer : MCPServer := ⟨NewBasicToolRegistry, [], []⟩

/-- `MCPServer.RegisterTool`: registers the definition in the registry and
stores the handler under `definition.Name` in the handler map. -/
def MCPServer.RegisterTool (s : MCPServer) (definition : ToolDefinition)
    (handler : Handler) : MCPServer :=
  { s with
    registry := s.registry.RegisterTool definition
    handlers := mapInsert definition.Name handler s.handlers }

/-- `MCPServer.RegisterServiceChecker`: appends the checker. -/
def MCPServer.RegisterServiceChecker (s : MCPServer) (checker : ServiceChecker) :
    MCPServer :=
  { s with serviceCheckers := s.serviceCheckers ++ [checker] }

/-- One JSON body written to the HTTP response: the envelopes the server
emits (`api.MCPErrorResponse`, `api.MCPFinalResponse`,
`api.MCPPartialResponse` — called `progressiveEnv` here — and the plain
bodies of `/v1/tools`, `/health` and `/v1/service-health`). -/
inductive Frame where
  | errorEnv (message : String) : Frame
  | finalEnv (result : Json) : Frame
  | progressiveEnv (content : Json) (done : Bool) : Frame
  | toolsEnv (tools : List ToolDefinition) : Frame
  | statusEnv (status : String) : Frame
  | serviceHealthEnv (status : String) (services : List (String × String)) : Frame

/-- Whether a frame is the Final envelope. -/
def Frame.isFinal : Frame → Bool
  | .finalEnv _ => true
  | _ => false

/-- Whether a frame is the streaming (`"partial"`) envelope. -/
def Frame.isProgressive : Frame → Bool
  | .progressiveEnv _ _ => true
  | _ => false

/-- An endpoint's observable HTTP response: the status code and the
sequence of JSON bodies written to the wire. -/
structure HttpResponse where
  status : Nat
  frames : List Frame

/-- The observable outcomes of reading (`io.ReadAll`) and JSON-decoding
(`json.Unmarshal`) the body of a `POST /v1/run` request. -/
inductive RunBody where
  | readError : RunBody
  | malformed : RunBody
  | parsed (req : MCPRequest) : RunBody

/-- `server.supportStreamingResponse`: the Go function returns `false` for
every handler (the basic implementation does not support streaming). -/
def supportStreamingResponse (_handler : Handler) : Bool := false

/-- The context constructed at the top of the execution phase of
`HandleRun`: `r.Context()` wrapped in `context.WithTimeout` when
`mcpRequest.Timeout > 0`, modelled by its deadline in milliseconds. -/
def requestDeadline (timeout : Int) : Option Int :=
  if timeout > 0 then some timeout else none

/-- `MCPServer.handleStreamingRequest`: writes a single `"partial"` frame
with `done=true` carrying either the handler result or
`{"error": <message>}`.  Note the Go body calls `handler.HandleRequest(req)`
without consulting `ctx`. -/
def handleStreamingRequest (_ctx : Option Int) (req : MCPRequest) (handler : Handler) :
    List Frame :=
  match handler req with
  | .error msg => [.progressiveEnv (.obj [("error", .str msg)]) true]
  | .ok result => [.progressiveEnv result true]

/-- `MCPServer.HandleRun`: method check, body decoding, tool-name check,
handler and definition lookup, parameter validation, then the streaming
check and the synchronous handler call.  Note that the Go code passes
`mcpRequest` — not the timeout context — to `handler.HandleRequest`, and
that the tool definition is the zero value (`getD`) when the registry has
no entry (`toolDef, _ := s.registry.GetTool(...)`). -/
def MCPServer.HandleRun (s : MCPServer) (method : String) (body : RunBody) :
    HttpResponse :=
  if method ≠ "POST" then ⟨405, [.errorEnv "Method not allowed"]⟩
  else
    match body with
    | .readError => ⟨400, [.errorEnv "Failed to read request body"]⟩
    | .malformed => ⟨400, [.errorEnv "Invalid request format"]⟩
    | .parsed mcpRequest =>
      if mcpRequest.ToolName = "" then
        ⟨400, [.errorEnv "Missing tool_name in request"]⟩
      else
        let toolDef := (s.registry.GetTool mcpRequest.ToolName).getD ⟨"", "", []⟩
        match jlookup mcpRequest.ToolName s.handlers with
        | none => ⟨400, [.errorEnv ("Unknown tool: " ++ mcpRequest.ToolName)]⟩
        | some handler =>
          match validateParameters mcpRequest.Input toolDef.Parameters with
          | some e => ⟨400, [.errorEnv ("Parameter validation failed: " ++ e.message)]⟩
          | none =>
            let ctx := requestDeadline mcpRequest.Timeout
            if supportStreamingResponse handler then
              ⟨200, handleStreamingRequest ctx mcpRequest handler⟩
            else
              match handler mcpRequest with
              | .error msg => ⟨500, [.errorEnv msg]⟩
              | .ok result => ⟨200, [.finalEnv result]⟩

/-- `MCPServer.HandleHealth`: writes `200 {"status":"ok"}`.  The Go body
performs no method check and ignores the request entirely. -/
def MCPServer.HandleHealth (_s : MCPServer) (_method : String) : HttpResponse :=
  ⟨200, [.statusEnv "ok"]⟩

/-- `MCPServer.HandleListTools`: `GET` only; returns the registry listing. -/
def MCPServer.HandleListTools (s : MCPServer) (method : String) : HttpResponse :=
  if method ≠ "GET" then ⟨405, [.errorEnv "Method not allowed"]⟩
  else ⟨200, [.toolsEnv s.registry.ListTools]⟩

/-- The string stored for one checker in the `results` map of
`HandleServiceHealth`: `"healthy"`, or `"unhealthy: <error>"`. -/
def checkerResult (c : ServiceChecker) : String :=
  match c.Check with
  | some errMsg => "unhealthy: " ++ errMsg
  | none => "healthy"

/-- `MCPServer.HandleServiceHealth`: `GET` only; invokes every registered
checker, building `results[name] = ...` (a Go map assignment per checker)
and tracking `allHealthy`; answers `200/"ok"` when all pass, else
`503/"degraded"`. -/
def MCPServer.HandleServiceHealth (s : MCPServer) (method : String) : HttpResponse :=
  if method ≠ "GET" then ⟨405, [.errorEnv "Method not allowed"]⟩
  else
    let results := s.serviceCheckers.foldl
      (fun m c => mapInsert c.Name (checkerResult c) m) []
    let allHealthy := s.serviceCheckers.all fun c => c.Check.isNone
    ⟨if allHealthy then 200 else 503,
     [.serviceHealthEnv (if allHealthy then "ok" else "degraded") results]⟩

/-- Folding `MCPServer.RegisterTool` over a whole wiring list, as
`setupServer` does at process start. -/
def registerAll (s : MCPServer) (regs : List (ToolDefinition × Handler)) : MCPServer :=
  regs.foldl (fun acc p => acc.RegisterTool p.1 p.2) s

/-- The invariant every registry reachable from `NewBasicToolRegistry`
satisfies: map keys are pairwise distinct and every stored definition is
keyed by its own name (`RegisterTool` stores under `tool.Name`). -/
def RegistryWF (r : BasicToolRegistry) : Prop :=
  (r.tools.map Prod.fst).Nodup ∧ ∀ kv ∈ r.tools, (Prod.snd kv).Name = Prod.fst kv

/-! Concrete values used to evaluate the development on closed inputs:
an Echo tool mirroring the end-to-end example of the spec, handlers with
fixed outcomes, and small schemas and servers. -/

/-- The Echo tool: one required string parameter `msg`. -/
def echoDef : ToolDefinition :=
  ⟨"Echo", "Echoes the message back",
   [("msg", .obj [("required", .bool true), ("type", .str "string")])]⟩

/-- An earlier definition registered under the same name `Echo`. -/
def oldEchoDef : ToolDefinition := ⟨"Echo", "old definition", []⟩

/-- A registry that already holds a tool named `Echo`. -/
def r0 : BasicToolRegistry := NewBasicToolRegistry.RegisterTool oldEchoDef

/-- A schema declaring two required string parameters `a` and `b`. -/
def cexSchema : List (String × Json) :=
  [("a", .obj [("required", .bool true), ("type", .str "string")]),
   ("b", .obj [("required", .bool true), ("type", .str "string")])]

/-- A schema object declaring type `integer`. -/
def intSpec : List (String × Json) := [("type", .str "integer")]

/-- The rational 11/2, i.e. the JSON number 5.5. -/
def fiveHalf : ℚ := ⟨11, 2, by decide, by decide⟩

/-- A handler that echoes the `msg` input back. -/
def echoHandler : Handler := fun req =>
  match jlookup "msg" req.Input with
  | some v => .ok (.obj [("echoed", v)])
  | none => .ok .null

/-- A handler that always fails with the text `boom`. -/
def failHandler : Handler := fun _ => .error "boom"

/-- A handler that always succeeds with the string `done`. -/
def okHandler : Handler := fun _ => .ok (.str "done")

/-- A server with the Echo tool registered. -/
def srv1 : MCPServer := NewMCPServer.RegisterTool echoDef echoHandler

/-- A server with a parameterless always-failing tool `Boom`. -/
def srvFail : MCPServer := NewMCPServer.RegisterTool ⟨"Boom", "always fails", []⟩ failHandler

/-- A server with a parameterless always-succeeding tool `Slow`. -/
def srvOk : MCPServer := NewMCPServer.RegisterTool ⟨"Slow", "slow tool", []⟩ okHandler

/-- A server with a healthy checker `A` and an unhealthy checker `B`. -/
def srvHealth : MCPServer :=
  (NewMCPServer.RegisterServiceChecker ⟨"A", none⟩).RegisterServiceChecker
    ⟨"B", some "x down"⟩

/-- A well-formed run request for the Echo tool. -/
def reqEcho : MCPRequest := ⟨[("msg", .str "hi")], "Echo", "", 0, ""⟩

/-- A run request for the failing tool `Boom`. -/
def reqBoom : MCPRequest := ⟨[], "Boom", "", 0, ""⟩

/-- A run request for the tool `Slow` carrying a 1-millisecond timeout. -/
def reqSlow : MCPRequest := ⟨[], "Slow", "", 1, ""⟩

theorem registryWF_empty : RegistryWF NewBasicToolRegistry := by
  constructor
  · simp [NewBasicToolRegistry]
  · intro kv hkv
    simp [NewBasicToolRegistry] at hkv

theorem jlookup_mapInsert_self {α : Type} (k : String) (v : α) (l : List (String × α)) :
    jlookup k (mapInsert k v l) = some v := by
  induction l with
  | nil => simp [mapInsert, jlookup]
  | cons hd tl ih =>
    obtain ⟨k₀, v₀⟩ := hd
    by_cases hk : k₀ = k
    · simp [mapInsert, hk, jlookup]
    · simp [mapInsert, hk, jlookup, ih]

theorem jlookup_isSome_iff {α : Type} (k : String) (l : List (String × α)) :
    (jlookup k l).isSome ↔ k ∈ l.map Prod.fst := by
  induction l with
  | nil => simp [jlookup]
  | cons hd tl ih =>
    obtain ⟨k₀, v₀⟩ := hd
    by_cases hk : k₀ = k
    · simp [jlookup, hk]
    · have : ¬ k = k₀ := fun h => hk h.symm
      simp [jlookup, hk, ih, this]

theorem jlookup_cons_of_ne {α : Type} (k k₀ : String) (v : α) (l : List (String × α))
    (h : k₀ ≠ k) : jlookup k ((k₀, v) :: l) = jlookup k l := by
  simp [jlookup, h]

theorem mapInsert_keys {α : Type} (k : String) (v : α) (l : List (String × α)) :
    (mapInsert k v l).map Prod.fst =
      if k ∈ l.map Prod.fst then l.map Prod.fst else l.map Prod.fst ++ [k] := by
  induction l with
  | nil => simp [mapInsert]
  | cons hd tl ih =>
    obtain ⟨k₀, v₀⟩ := hd
    by_cases hk : k₀ = k
    · subst hk
      simp [mapInsert]
    · have hne : ¬ k = k₀ := fun h => hk h.symm
      by_cases hmem : k ∈ tl.map Prod.fst
      · simp [mapInsert, hk, ih, hmem, hne]
      · simp [mapInsert, hk, ih, hmem, hne]

theorem mapInsert_keys_nodup {α : Type} (k : String) (v : α) (l : List (String × α))
    (h : (l.map Prod.fst).Nodup) : ((mapInsert k v l).map Prod.fst).Nodup := by
  rw [mapInsert_keys]
  by_cases hmem : k ∈ l.map Prod.fst
  · simpa [hmem]
  · simp [hmem, List.nodup_append, h]

theorem mapInsert_keys_count {α : Type} (k : String) (v : α) (l : List (String × α))
    (h : (l.map Prod.fst).Nodup) : ((mapInsert k v l).map Prod.fst).count k = 1 := by
  rw [mapInsert_keys]
  by_cases hmem : k ∈ l.map Prod.fst
  · simpa [hmem] using List.count_eq_one_of_mem h hmem
  · simp [hmem, List.count_append, List.count_eq_zero_of_not_mem hmem]

theorem mapInsert_of_not_mem {α : Type} (k : String) (v : α) (l : List (String × α))
    (h : k ∉ l.map Prod.fst) : mapInsert k v l = l ++ [(k, v)] := by
  induction l with
  | nil => rfl
  | cons hd tl ih =>
    obtain ⟨k₀, v₀⟩ := hd
    simp only [List.map_cons, List.mem_cons, not_or] at h
    have hne : ¬ k₀ = k := fun hh => h.1 hh.symm
    simp [mapInsert, hne, ih h.2]

theorem mapInsert_length {α : Type} (k : String) (v : α) (l : List (String × α)) :
    (mapInsert k v l).length =
      if k ∈ l.map Prod.fst then l.length else l.length + 1 := by
  have := mapInsert_keys k v l
  by_cases hmem : k ∈ l.map Prod.fst
  · have h2 : ((mapInsert k v l).map Prod.fst).length = (l.map Prod.fst).length := by
      rw [this]; simp [hmem]
    simpa [hmem] using h2
  · have h2 : ((mapInsert k v l).map Prod.fst).length = (l.map Prod.fst).length + 1 := by
      rw [this]; simp [hmem]
    simpa [hmem] using h2

theorem countP_name_eq_count_keys (n : String) (l : List (String × ToolDefinition))
    (h : ∀ kv ∈ l, (Prod.snd kv).Name = Prod.fst kv) :
    (l.map Prod.snd).countP (fun t => t.Name == n) = (l.map Prod.fst).count n := by
  induction l with
  | nil => rfl
  | cons hd tl ih =>
    obtain ⟨k₀, v₀⟩ := hd
    have hname : v₀.Name = k₀ := h (k₀, v₀) (by simp)
    have ihh := ih fun kv hkv => h kv (by simp [hkv])
    simp [List.countP_cons, List.count_cons, hname, ihh]

theorem mapInsert_name_inv (k : String) (v : ToolDefinition)
    (l : List (String × ToolDefinition))
    (h : ∀ kv ∈ l, (Prod.snd kv).Name = Prod.fst kv) (hv : v.Name = k) :
    ∀ kv ∈ mapInsert k v l, (Prod.snd kv).Name = Prod.fst kv := by
  induction l with
  | nil =>
    intro kv hkv
    simp [mapInsert] at hkv
    subst hkv
    exact hv
  | cons hd tl ih =>
    obtain ⟨k₀, v₀⟩ := hd
    by_cases hk : k₀ = k
    · intro kv hkv
      simp [mapInsert, hk] at hkv
      rcases hkv with hkv | hkv
      · subst hkv; exact hv
      · exact h kv (by simp [hkv])
    · intro kv hkv
      simp [mapInsert, hk] at hkv
      rcases hkv with hkv | hkv
      · subst hkv; exact h (k₀, v₀) (by simp)
      · exact ih (fun kv2 hkv2 => h kv2 (by simp [hkv2])) kv hkv

/-- C1: for every ToolDefinition `d` and every (reachable, i.e. well-formed)
prior registry state, after `RegisterTool d`, `GetTool d.Name` finds a
definition equal to `d`, and `ListTools` contains exactly one definition
named `d.Name`; re-registering an existing name replaces the stored
definition (the number of entries grows only when the name was absent), and
well-formedness is preserved. -/
theorem register_lookup_list_unique (r : BasicToolRegistry) (d : ToolDefinition)
    (hwf : RegistryWF r) :
    ((r.RegisterTool d).GetTool d.Name = some d) ∧
    ((r.RegisterTool d).ListTools.countP (fun t => t.Name == d.Name) = 1) ∧
    ((r.RegisterTool d).tools.length =
      if d.Name ∈ r.tools.map Prod.fst then r.tools.length else r.tools.length + 1) ∧
    RegistryWF (r.RegisterTool d) := by
  obtain ⟨hnodup, hnames⟩ := hwf
  have hinv := mapInsert_name_inv d.Name d r.tools hnames rfl
  refine ⟨?_, ?_, ?_, ?_, ?_⟩
  · exact jlookup_mapInsert_self d.Name d r.tools
  · calc ((r.RegisterTool d).ListTools.countP (fun t => t.Name == d.Name))
        = ((mapInsert d.Name d r.tools).map Prod.fst).count d.Name :=
          countP_name_eq_count_keys d.Name (mapInsert d.Name d r.tools) hinv
      _ = 1 := mapInsert_keys_count d.Name d r.tools hnodup
  · exact mapInsert_length d.Name d r.tools
  · exact mapInsert_keys_nodup d.Name d r.tools hnodup
  · exact hinv

/-- C1 witness: registering `echoDef` over a registry that already holds a
tool named `Echo` finds the new definition and lists exactly one `Echo`
entry, with the total entry count unchanged. -/
theorem register_lookup_list_unique_w :
    ((r0.RegisterTool echoDef).GetTool echoDef.Name = some echoDef) ∧
    ((r0.RegisterTool echoDef).ListTools.countP (fun t => t.Name == echoDef.Name) = 1) ∧
    ((r0.RegisterTool echoDef).tools.length =
      if echoDef.Name ∈ r0.tools.map Prod.fst then r0.tools.length
      else r0.tools.length + 1) ∧
    RegistryWF (r0.RegisterTool echoDef) :=
  register_lookup_list_unique r0 echoDef
    (by
      refine ⟨?_, ?_⟩
      · simp [r0, NewBasicToolRegistry, BasicToolRegistry.RegisterTool, oldEchoDef,
          mapInsert]
      · intro kv hkv
        simp [r0, NewBasicToolRegistry, BasicToolRegistry.RegisterTool, oldEchoDef,
          mapInsert] at hkv
        subst hkv
        rfl)

theorem typeCheck_param (n t : String) (v : Json) (e : VErr)
    (h : typeCheck n t v = some e) : e.param = n := by
  unfold typeCheck at h
  repeat' split at h
  all_goals first
    | (cases h; rfl)
    | cases h

theorem checkParam_param (input : List (String × Json)) (n : String) (sp : Json)
    (e : VErr) (h : checkParam input n sp = some e) : e.param = n := by
  cases sp with
  | obj so =>
    rcases hlook : jlookup n input with _ | v
    · by_cases hreq : requiredOf so = true
      · have hval : checkParam input n (.obj so) = some ⟨n, .requiredMissing⟩ := by
          simp [checkParam, hlook, hreq]
        rw [hval] at h
        cases h
        rfl
      · have hval : checkParam input n (.obj so) = none := by
          simp only [Bool.not_eq_true] at hreq
          simp [checkParam, hlook, hreq]
        rw [hval] at h
        cases h
    · have hval : checkParam input n (.obj so) = typeCheck n (declaredType so) v := by
        simp [checkParam, hlook]
      rw [hval] at h
      exact typeCheck_param n (declaredType so) v e h
  | null => cases h
  | bool b => cases h
  | num q => cases h
  | str s => cases h
  | arr es => cases h

theorem checkParam_cons_of_ne (input : List (String × Json)) (k n : String)
    (v : Json) (sp : Json) (h : k ≠ n) :
    checkParam ((k, v) :: input) n sp = checkParam input n sp := by
  simp only [checkParam, jlookup_cons_of_ne n k v input h]

theorem validateParameters_none_of_ok (I S : List (String × Json))
    (h : ∀ p so, (p, Json.obj so) ∈ S →
      (requiredOf so = true → (jlookup p I).isSome) ∧
      (∀ v, jlookup p I = some v → typeCheck p (declaredType so) v = none)) :
    validateParameters I S = none := by
  induction S with
  | nil => rfl
  | cons hd tl ih =>
    obtain ⟨n, sp⟩ := hd
    have hhd : checkParam I n sp = none := by
      cases sp with
      | obj so =>
        have hh := h n so (by simp)
        unfold checkParam
        rcases hlook : jlookup n I with _ | v
        · by_cases hreq : requiredOf so = true
          · have := hh.1 hreq
            rw [hlook] at this
            simp at this
          · simp only [Bool.not_eq_true] at hreq
            simp [hreq]
        · simp [hlook, hh.2 v hlook]
      | null => rfl
      | bool b => rfl
      | num q => rfl
      | str s => rfl
      | arr es => rfl
    have htl := ih fun p so hmem => h p so (by simp [hmem])
    simp [validateParameters, hhd, htl]

theorem validateParameters_first_required (I : List (String × Json))
    (S₁ S₂ : List (String × Json)) (p : String) (so : List (String × Json))
    (hok : ∀ q sp, (q, sp) ∈ S₁ → checkParam I q sp = none)
    (hreq : requiredOf so = true) (habs : jlookup p I = none) :
    validateParameters I (S₁ ++ (p, .obj so) :: S₂) = some ⟨p, .requiredMissing⟩ := by
  induction S₁ with
  | nil => simp [validateParameters, checkParam, hreq, habs]
  | cons hd tl ih =>
    obtain ⟨q, sp⟩ := hd
    have hq : checkParam I q sp = none := hok q sp (by simp)
    simp only [List.cons_append, validateParameters, hq]
    exact ih fun q2 sp2 hm => hok q2 sp2 (by simp [hm])

/-- C2 counterexample: the schema `cexSchema` declares both `a` and `b` as
required strings; on the empty input, `b` is a required parameter absent
from the input, yet the validation error names `a` (the first declared
parameter in iteration order), not `b`.  So validation does not report an
error naming each absent required parameter. -/
theorem validator_names_first_missing_cex :
    (jlookup "b" cexSchema =
      some (.obj [("required", .bool true), ("type", .str "string")])) ∧
    (requiredOf [("required", .bool true), ("type", .str "string")] = true) ∧
    (jlookup "b" ([] : List (String × Json)) = none) ∧
    (validateParameters [] cexSchema = some ⟨"a", .requiredMissing⟩) ∧
    ((validateParameters [] cexSchema).map VErr.param ≠ some "b") := by
  refine ⟨rfl, rfl, rfl, rfl, ?_⟩
  intro h
  simp [cexSchema, validateParameters, checkParam, requiredOf, jlookup] at h

/-- C2 (amended): when the declared parameters that precede `p` in schema
iteration order all pass their checks and `p` is required but absent from
the input, `validateParameters` fails with reason "required parameter
missing" naming `p`, and `POST /v1/run` then answers 400 with the error
envelope message "Parameter validation failed: required parameter missing:
p"; when every declared required parameter is present and every declared
parameter present in the input has its declared type, validation
succeeds. -/
theorem validator_required_missing_amended :
    (∀ (I S₁ S₂ : List (String × Json)) (p : String) (so : List (String × Json)),
      (∀ q sp, (q, sp) ∈ S₁ → checkParam I q sp = none) →
      requiredOf so = true → jlookup p I = none →
      validateParameters I (S₁ ++ (p, .obj so) :: S₂) = some ⟨p, .requiredMissing⟩) ∧
    (∀ (s : MCPServer) (req : MCPRequest) (h : Handler) (p : String),
      req.ToolName ≠ "" →
      jlookup req.ToolName s.handlers = some h →
      validateParameters req.Input
        ((s.registry.GetTool req.ToolName).getD ⟨"", "", []⟩).Parameters =
        some ⟨p, .requiredMissing⟩ →
      s.HandleRun "POST" (.parsed req) =
        ⟨400, [.errorEnv ("Parameter validation failed: " ++
          ("required parameter missing: " ++ p))]⟩) ∧
    (∀ (I S : List (String × Json)),
      (∀ p so, (p, Json.obj so) ∈ S →
        (requiredOf so = true → (jlookup p I).isSome) ∧
        (∀ v, jlookup p I = some v → typeCheck p (declaredType so) v = none)) →
      validateParameters I S = none) := by
  refine ⟨validateParameters_first_required, ?_, validateParameters_none_of_ok⟩
  intro s req h p hname hh hv
  simp [MCPServer.HandleRun, hname, hh, hv, VErr.message]

/-- C2 witness: on the Echo schema, the empty input fails naming `msg` with
the expected 400 envelope, and the input `{msg: "hi"}` validates. -/
theorem validator_required_missing_amended_w :
    (validateParameters []
      [("msg", .obj [("required", .bool true), ("type", .str "string")])] =
      some ⟨"msg", .requiredMissing⟩) ∧
    (srv1.HandleRun "POST" (.parsed ⟨[], "Echo", "", 0, ""⟩) =
      ⟨400, [.errorEnv ("Parameter validation failed: " ++
        ("required parameter missing: " ++ "msg"))]⟩) ∧
    (validateParameters [("msg", .str "hi")] echoDef.Parameters = none) := by
  obtain ⟨h1, h2, h3⟩ := validator_required_missing_amended
  refine ⟨?_, ?_, ?_⟩
  · exact h1 [] [] [] "msg" [("required", .bool true), ("type", .str "string")]
      (by intro q sp hm; simp at hm) rfl rfl
  · exact h2 srv1 ⟨[], "Echo", "", 0, ""⟩ echoHandler "msg" (by decide) rfl rfl
  · refine h3 [("msg", .str "hi")] echoDef.Parameters ?_
    intro p so hm
    simp [echoDef] at hm
    obtain ⟨rfl, rfl⟩ := hm
    refine ⟨fun _ => rfl, ?_⟩
    intro v hv
    cases hv
    rfl

/-- C3: for a parameter declared with type `integer` and present in the
input, a numeric value passes validation exactly when it has zero
fractional part, and a string value always fails. -/
theorem integer_typecheck_boundary (sObj : List (String × Json)) (name : String)
    (htype : declaredType sObj = "integer") :
    (∀ (I : List (String × Json)) (q : ℚ), jlookup name I = some (.num q) →
      (checkParam I name (.obj sObj) = none ↔ q.den = 1)) ∧
    (∀ (I : List (String × Json)) (st : String), jlookup name I = some (.str st) →
      checkParam I name (.obj sObj) = some ⟨name, .mustBe "an integer"⟩) := by
  constructor
  · intro I q hq
    have hred : checkParam I name (.obj sObj) =
        if q.den == 1 then none else some ⟨name, .mustBe "an integer"⟩ := by
      simp [checkParam, hq, htype, typeCheck, isIntegral]
    rw [hred]
    by_cases hden : q.den = 1
    · simp [hden]
    · simp [hden]
  · intro I st hst
    simp [checkParam, hst, htype, typeCheck]

/-- C3 witness: against the schema object `{type: integer}`, the value 5
(i.e. 5.0) passes, 5.5 fails, and the string "5" fails. -/
theorem integer_typecheck_boundary_w :
    (checkParam [("x", .num 5)] "x" (.obj intSpec) = none) ∧
    (checkParam [("x", .num fiveHalf)] "x" (.obj intSpec) ≠ none) ∧
    (checkParam [("x", .str "5")] "x" (.obj intSpec) =
      some ⟨"x", .mustBe "an integer"⟩) := by
  have h := integer_typecheck_boundary intSpec "x" rfl
  refine ⟨?_, ?_, ?_⟩
  · exact (h.1 [("x", .num 5)] 5 rfl).mpr (by decide)
  · intro hn
    have := (h.1 [("x", .num fiveHalf)] fiveHalf rfl).mp hn
    simp [fiveHalf] at this
  · exact h.2 [("x", .str "5")] "5" rfl

/-- C4: the validator never rejects an input because of an undeclared key:
the empty schema accepts every input, every reported error names a declared
parameter, and adding an input entry under an undeclared key leaves the
validation outcome unchanged. -/
theorem validator_ignores_undeclared_keys :
    (∀ input : List (String × Json), validateParameters input [] = none) ∧
    (∀ (input schema : List (String × Json)) (e : VErr),
      validateParameters input schema = some e → e.param ∈ schema.map Prod.fst) ∧
    (∀ (input schema : List (String × Json)) (k : String) (v : Json),
      k ∉ schema.map Prod.fst →
      validateParameters ((k, v) :: input) schema = validateParameters input schema) := by
  refine ⟨fun _ => rfl, ?_, ?_⟩
  · intro input schema e h
    induction schema with
    | nil => cases h
    | cons hd tl ih =>
      obtain ⟨n, sp⟩ := hd
      rcases hc : checkParam input n sp with _ | e₀
      · simp only [validateParameters, hc] at h
        simp [ih h]
      · simp only [validateParameters, hc] at h
        cases h
        simp [checkParam_param input n sp _ hc]
  · intro input schema k v hk
    induction schema with
    | nil => rfl
    | cons hd tl ih =>
      obtain ⟨n, sp⟩ := hd
      have hkn : k ≠ n := by
        intro hkn
        exact hk (by simp [hkn])
      have htl : k ∉ tl.map Prod.fst := fun hm => hk (by simp [hm])
      simp only [validateParameters, checkParam_cons_of_ne input k n v sp hkn, ih htl]

/-- C4 witness: the empty schema accepts an arbitrary input; the error on
the two-required-parameter schema names a declared parameter; adding the
undeclared key `extra` does not change the Echo validation outcome. -/
theorem validator_ignores_undeclared_keys_w :
    (validateParameters [("z", .str "1")] [] = none) ∧
    (⟨"a", .requiredMissing⟩ : VErr).param ∈ cexSchema.map Prod.fst ∧
    (validateParameters [("extra", .str "x"), ("msg", .str "hi")] echoDef.Parameters =
      validateParameters [("msg", .str "hi")] echoDef.Parameters) := by
  obtain ⟨h1, h2, h3⟩ := validator_ignores_undeclared_keys
  refine ⟨h1 [("z", .str "1")], ?_, ?_⟩
  · exact h2 [] cexSchema ⟨"a", .requiredMissing⟩ rfl
  · exact h3 [("msg", .str "hi")] echoDef.Parameters "extra" (.str "x")
      (by simp [echoDef])

/-- C5: when the resolved handler of a run request returns an error, the
server answers 500 with the error envelope carrying the handler's error
text verbatim, and no Final frame is emitted. -/
theorem handler_error_gives_500_verbatim (s : MCPServer) (req : MCPRequest)
    (h : Handler) (msg : String)
    (hname : req.ToolName ≠ "")
    (hh : jlookup req.ToolName s.handlers = some h)
    (hv : validateParameters req.Input
      ((s.registry.GetTool req.ToolName).getD ⟨"", "", []⟩).Parameters = none)
    (herr : h req = .error msg) :
    (s.HandleRun "POST" (.parsed req) = ⟨500, [.errorEnv msg]⟩) ∧
    (((s.HandleRun "POST" (.parsed req)).frames.all fun f => !f.isFinal) = true) := by
  have hrun : s.HandleRun "POST" (.parsed req) = ⟨500, [.errorEnv msg]⟩ := by
    simp [MCPServer.HandleRun, hname, hh, hv, supportStreamingResponse, herr]
  exact ⟨hrun, by rw [hrun]; rfl⟩

/-- C5 witness: the parameterless tool `Boom`, whose handler fails with
text `boom`, produces exactly the 500 error envelope `boom`. -/
theorem handler_error_gives_500_verbatim_w :
    (srvFail.HandleRun "POST" (.parsed reqBoom) = ⟨500, [.errorEnv "boom"]⟩) ∧
    (((srvFail.HandleRun "POST" (.parsed reqBoom)).frames.all fun f => !f.isFinal) = true) :=
  handler_error_gives_500_verbatim srvFail reqBoom failHandler "boom"
    (by decide) rfl rfl rfl

/-- C6 (code evaluation): the run response is independent of the requested
timeout whenever the handler itself does not inspect the Timeout field —
the deadline context constructed by HandleRun is never consulted on the
synchronous path, so no Timeout failure can surface and the response is
produced only when the handler returns. -/
theorem handleRun_ignores_timeout (s : MCPServer) (req : MCPRequest) (t t₂ : Int)
    (hhand : ∀ h : Handler, jlookup req.ToolName s.handlers = some h →
      h { req with Timeout := t } = h { req with Timeout := t₂ }) :
    s.HandleRun "POST" (.parsed { req with Timeout := t }) =
      s.HandleRun "POST" (.parsed { req with Timeout := t₂ }) := by
  by_cases hname : req.ToolName = ""
  · simp [MCPServer.HandleRun, hname]
  · rcases hl : jlookup req.ToolName s.handlers with _ | h
    · simp [MCPServer.HandleRun, hname, hl]
    · rcases hv : validateParameters req.Input
        ((s.registry.GetTool req.ToolName).getD ⟨"", "", []⟩).Parameters with _ | e
      · simp [MCPServer.HandleRun, hname, hl, hv, supportStreamingResponse,
          hhand h hl]
      · simp [MCPServer.HandleRun, hname, hl, hv]

/-- C6 witness: for the always-succeeding tool `Slow`, a 1 ms deadline and
no deadline at all produce the same response. -/
theorem handleRun_ignores_timeout_w :
    srvOk.HandleRun "POST" (.parsed { reqSlow with Timeout := 1 }) =
      srvOk.HandleRun "POST" (.parsed { reqSlow with Timeout := 0 }) :=
  handleRun_ignores_timeout srvOk reqSlow 1 0
    (by
      intro h hl
      have h2 : some okHandler = some h := by rw [← hl]; rfl
      obtain rfl : okHandler = h := Option.some.inj h2
      rfl)

/-- C7 counterexample: /health performs no method check: a POST to /health
is answered 200 `{"status":"ok"}`, not a 405 error envelope. -/
theorem health_no_method_check_cex :
    (NewMCPServer.HandleHealth "POST" = ⟨200, [.statusEnv "ok"]⟩) ∧
    ((NewMCPServer.HandleHealth "POST").status ≠ 405) :=
  ⟨rfl, by decide⟩

/-- C7 (amended): a wrong HTTP method on /v1/run, /v1/tools or
/v1/service-health is answered with a 405 error envelope; /health answers
200 `{"status":"ok"}` to every method. -/
theorem wrong_method_405_amended :
    (∀ (s : MCPServer) (method : String) (body : RunBody), method ≠ "POST" →
      s.HandleRun method body = ⟨405, [.errorEnv "Method not allowed"]⟩) ∧
    (∀ (s : MCPServer) (method : String), method ≠ "GET" →
      s.HandleListTools method = ⟨405, [.errorEnv "Method not allowed"]⟩) ∧
    (∀ (s : MCPServer) (method : String), method ≠ "GET" →
      s.HandleServiceHealth method = ⟨405, [.errorEnv "Method not allowed"]⟩) ∧
    (∀ (s : MCPServer) (method : String),
      s.HandleHealth method = ⟨200, [.statusEnv "ok"]⟩) := by
  refine ⟨?_, ?_, ?_, fun s method => rfl⟩
  · intro s method body hm
    simp [MCPServer.HandleRun, hm]
  · intro s method hm
    simp [MCPServer.HandleListTools, hm]
  · intro s method hm
    simp [MCPServer.HandleServiceHealth, hm]

/-- C7 witness: a GET to /v1/run, a POST to /v1/tools and a POST to
/v1/service-health each yield the 405 error envelope, while a DELETE to
/health still yields 200. -/
theorem wrong_method_405_amended_w :
    (srv1.HandleRun "GET" (.parsed reqEcho) = ⟨405, [.errorEnv "Method not allowed"]⟩) ∧
    (srv1.HandleListTools "POST" = ⟨405, [.errorEnv "Method not allowed"]⟩) ∧
    (srv1.HandleServiceHealth "POST" = ⟨405, [.errorEnv "Method not allowed"]⟩) ∧
    (srv1.HandleHealth "DELETE" = ⟨200, [.statusEnv "ok"]⟩) := by
  obtain ⟨h1, h2, h3, h4⟩ := wrong_method_405_amended
  exact ⟨h1 srv1 "GET" (.parsed reqEcho) (by decide), h2 srv1 "POST" (by decide),
    h3 srv1 "POST" (by decide), h4 srv1 "DELETE"⟩

/-- C8: a run request that resolves to a handler and passes validation is
answered by exactly one frame determined by a single synchronous handler
call — a Final frame on success, an Error frame on failure — and never by
a streaming frame, because the streaming-capability check is false for
every handler. -/
theorem run_emits_single_terminal_frame (s : MCPServer) (req : MCPRequest)
    (h : Handler)
    (hname : req.ToolName ≠ "")
    (hh : jlookup req.ToolName s.handlers = some h)
    (hv : validateParameters req.Input
      ((s.registry.GetTool req.ToolName).getD ⟨"", "", []⟩).Parameters = none) :
    (supportStreamingResponse h = false) ∧
    (s.HandleRun "POST" (.parsed req) =
      match h req with
      | .ok result => ⟨200, [.finalEnv result]⟩
      | .error msg => ⟨500, [.errorEnv msg]⟩) ∧
    ((s.HandleRun "POST" (.parsed req)).frames.length = 1) ∧
    (((s.HandleRun "POST" (.parsed req)).frames.all fun f => !f.isProgressive) = true) := by
  have hrun : s.HandleRun "POST" (.parsed req) =
      match h req with
      | .ok result => ⟨200, [.finalEnv result]⟩
      | .error msg => ⟨500, [.errorEnv msg]⟩ := by
    rcases hr : h req with msg | result
    · simp [MCPServer.HandleRun, hname, hh, hv, supportStreamingResponse, hr]
    · simp [MCPServer.HandleRun, hname, hh, hv, supportStreamingResponse, hr]
  refine ⟨rfl, hrun, ?_, ?_⟩ <;> rw [hrun] <;> rcases h req with msg | result <;> rfl

/-- C8 witness: the well-formed Echo request is answered by exactly one
Final frame echoing the message. -/
theorem run_emits_single_terminal_frame_w :
    (supportStreamingResponse echoHandler = false) ∧
    (srv1.HandleRun "POST" (.parsed reqEcho) =
      match echoHandler reqEcho with
      | .ok result => ⟨200, [.finalEnv result]⟩
      | .error msg => ⟨500, [.errorEnv msg]⟩) ∧
    ((srv1.HandleRun "POST" (.parsed reqEcho)).frames.length = 1) ∧
    (((srv1.HandleRun "POST" (.parsed reqEcho)).frames.all fun f => !f.isProgressive) = true) :=
  run_emits_single_terminal_frame srv1 reqEcho echoHandler (by decide) rfl rfl

theorem foldl_mapInsert_checkers (cs : List ServiceChecker)
    (acc : List (String × String))
    (hnd : (cs.map ServiceChecker.Name).Nodup)
    (hfresh : ∀ c ∈ cs, c.Name ∉ acc.map Prod.fst) :
    cs.foldl (fun m c => mapInsert c.Name (checkerResult c) m) acc =
      acc ++ cs.map fun c => (c.Name, checkerResult c) := by
  induction cs generalizing acc with
  | nil => simp
  | cons c rest ih =>
    have hc : c.Name ∉ acc.map Prod.fst := hfresh c (by simp)
    have h1 : mapInsert c.Name (checkerResult c) acc =
        acc ++ [(c.Name, checkerResult c)] := mapInsert_of_not_mem _ _ _ hc
    have hnd2 : (rest.map ServiceChecker.Name).Nodup := (List.nodup_cons.mp hnd).2
    have hhead : c.Name ∉ rest.map ServiceChecker.Name := (List.nodup_cons.mp hnd).1
    have hfresh2 : ∀ c₂ ∈ rest,
        c₂.Name ∉ (acc ++ [(c.Name, checkerResult c)]).map Prod.fst := by
      intro c₂ hc₂
      simp only [List.map_append, List.mem_append]
      rintro (hmem | hmem)
      · exact hfresh c₂ (by simp [hc₂]) hmem
      · simp at hmem
        exact hhead (hmem ▸ List.mem_map_of_mem ServiceChecker.Name hc₂)
    calc (c :: rest).foldl (fun m c => mapInsert c.Name (checkerResult c) m) acc
        = rest.foldl (fun m c => mapInsert c.Name (checkerResult c) m)
            (acc ++ [(c.Name, checkerResult c)]) := by rw [List.foldl_cons, h1]
      _ = (acc ++ [(c.Name, checkerResult c)]) ++
            rest.map fun c => (c.Name, checkerResult c) := ih _ hnd2 hfresh2
      _ = acc ++ (c :: rest).map fun c => (c.Name, checkerResult c) := by simp

/-- C9: with pairwise-distinct checker names, GET /v1/service-health reports
one entry per checker — "healthy" for a nil Check, "unhealthy: detail" for
an error — with overall status "ok" and HTTP 200 when every checker passes,
and overall status "degraded" and HTTP 503 as soon as some checker reports
an error. -/
theorem service_health_report (s : MCPServer)
    (hnd : (s.serviceCheckers.map ServiceChecker.Name).Nodup) :
    ((∀ c ∈ s.serviceCheckers, c.Check = none) →
      s.HandleServiceHealth "GET" =
        ⟨200, [.serviceHealthEnv "ok"
          (s.serviceCheckers.map fun c => (c.Name, checkerResult c))]⟩) ∧
    (∀ (c : ServiceChecker) (e : String), c ∈ s.serviceCheckers → c.Check = some e →
      s.HandleServiceHealth "GET" =
        ⟨503, [.serviceHealthEnv "degraded"
          (s.serviceCheckers.map fun c => (c.Name, checkerResult c))]⟩) ∧
    (∀ c : ServiceChecker, c.Check = none → checkerResult c = "healthy") ∧
    (∀ (c : ServiceChecker) (e : String), c.Check = some e →
      checkerResult c = "unhealthy: " ++ e) := by
  have hres : s.serviceCheckers.foldl
      (fun m c => mapInsert c.Name (checkerResult c) m) [] =
      s.serviceCheckers.map fun c => (c.Name, checkerResult c) := by
    simpa using foldl_mapInsert_checkers s.serviceCheckers [] hnd (by simp)
  refine ⟨?_, ?_, ?_, ?_⟩
  · intro hall
    have hb : s.serviceCheckers.all (fun c => c.Check.isNone) = true := by
      rw [List.all_eq_true]
      intro c hc
      simp [hall c hc]
    simp [MCPServer.HandleServiceHealth, hres, hb]
  · intro c e hc hce
    have hb : s.serviceCheckers.all (fun c => c.Check.isNone) = false := by
      cases hb2 : s.serviceCheckers.all (fun c => c.Check.isNone)
      · rfl
      · have := (List.all_eq_true.mp hb2) c hc
        rw [hce] at this
        simp at this
    simp [MCPServer.HandleServiceHealth, hres, hb]
  · intro c hce
    simp [checkerResult, hce]
  · intro c e hce
    simp [checkerResult, hce]

/-- C9 witness: over the checkers `A` (healthy) and `B` (unhealthy with
detail `x down`), the endpoint answers 503 with overall status "degraded"
and the report `{A: healthy, B: unhealthy: x down}`. -/
theorem service_health_report_w :
    srvHealth.HandleServiceHealth "GET" =
      ⟨503, [.serviceHealthEnv "degraded"
        [("A", "healthy"), ("B", "unhealthy: x down")]]⟩ :=
  (service_health_report srvHealth (by simp [srvHealth, NewMCPServer,
      MCPServer.RegisterServiceChecker])).2.1
    ⟨"B", some "x down"⟩ "x down" (by simp [srvHealth, NewMCPServer,
      MCPServer.RegisterServiceChecker]) rfl

theorem registerAll_keys (regs : List (ToolDefinition × Handler)) (s : MCPServer)
    (hinv : s.handlers.map Prod.fst = s.registry.tools.map Prod.fst) :
    (registerAll s regs).handlers.map Prod.fst =
      (registerAll s regs).registry.tools.map Prod.fst := by
  induction regs generalizing s with
  | nil => simpa [registerAll]
  | cons p rest ih =>
    have hinv2 : (s.RegisterTool p.1 p.2).handlers.map Prod.fst =
        (s.RegisterTool p.1 p.2).registry.tools.map Prod.fst := by
      simp only [MCPServer.RegisterTool, BasicToolRegistry.RegisterTool]
      rw [mapInsert_keys, mapInsert_keys, hinv]
    simpa only [registerAll, List.foldl_cons] using ih (s.RegisterTool p.1 p.2) hinv2

/-- C10: after any sequence of MCPServer.RegisterTool calls starting from
NewMCPServer, the names keyed in the handler map are exactly the names
keyed in the tool registry, so the unknown-tool check of HandleRun (a
handler-map lookup) and the registry lookup GetTool agree on every name. -/
theorem handlers_registry_keys_agree (regs : List (ToolDefinition × Handler))
    (name : String) :
    ((registerAll NewMCPServer regs).handlers.map Prod.fst =
      (registerAll NewMCPServer regs).registry.tools.map Prod.fst) ∧
    ((jlookup name (registerAll NewMCPServer regs).handlers).isSome ↔
      ((registerAll NewMCPServer regs).registry.GetTool name).isSome) := by
  have hkeys := registerAll_keys regs NewMCPServer rfl
  refine ⟨hkeys, ?_⟩
  rw [jlookup_isSome_iff, BasicToolRegistry.GetTool, jlookup_isSome_iff, hkeys]

end ArrMcp
